import Mathlib

/-!
Verification of the `ll-tools` transcript renderer
(`py/scripts/get_yt_transcript.py`).

The script's pure logic is embedded shallowly:

* Python strings are `String` / `List Char`; Python `float` seconds are
  modelled as exact rationals `ℚ` (the script does no float-specific
  operation beyond arithmetic, `//`, `%` and `int(...)` truncation).
* `urllib.parse.urlparse` / `parse_qs` (standard-library collaborators of
  `extract_video_id`) are modelled from their documented behaviour:
  scheme split at the first `:` when the prefix is a valid scheme, netloc
  after `//` up to the first of `/?#`, fragment after the first `#`,
  query after the first `?`, and then the `;params` suffix split off the
  last path segment (`_splitparams`); `hostname` lowercases the netloc
  after stripping user info and port; `parse_qs` drops blank values
  (`keep_blank_values=False`) and fields without `=`, with no
  percent-decoding.  The embedding is exact for inputs made of printable
  ASCII without spaces and whose netloc is bracket-free: outside that
  class CPython strips whitespace and control characters from the URL,
  parses a bracketed netloc as an IPv6 host (raising `ValueError` when
  the brackets are unbalanced), and `str.isalnum` accepts non-ASCII
  alphanumerics.  The universally quantified theorems carry these bounds
  as hypotheses.
* `json.dumps(..., indent=2, ensure_ascii=False)` is modelled
  byte-for-byte for the shape the script serialises (a list of objects
  with three string fields), including its escaping of `"`, `\` and
  control characters.
* The `main` orchestration is modelled as a pure decision function over
  the command line, the importability of the fetch library, and the
  outcome of the fetch/render/write phase.
-/

/-! ## Generic character-list scanners used by the URL model -/

/-- Split a list at the first occurrence of `sep`: `some (before, after)`
when `sep` occurs, `none` otherwise.  Mirrors Python `str.find` +
slicing. -/
def splitFirst (sep : Char) : List Char → Option (List Char × List Char)
  | [] => none
  | c :: rest =>
      if c = sep then some ([], rest)
      else (splitFirst sep rest).map fun p => (c :: p.1, p.2)

/-- Model of Python `str.split(sep)` for a one-character separator:
always returns at least one (possibly empty) field. -/
def splitOnChar (sep : Char) : List Char → List (List Char)
  | [] => [[]]
  | c :: rest =>
      if c = sep then [] :: splitOnChar sep rest
      else
        match splitOnChar sep rest with
        | [] => [[c]]
        | g :: gs => (c :: g) :: gs

/-- Take characters until the first one contained in `stops`; returns the
taken span and the remainder (which starts with the stop character when
one was found).  Mirrors `urllib.parse._splitnetloc`. -/
def takeUntilAny (stops : List Char) : List Char → List Char × List Char
  | [] => ([], [])
  | c :: rest =>
      if c ∈ stops then ([], c :: rest)
      else
        let p := takeUntilAny stops rest
        (c :: p.1, p.2)

/-! ## Model of `urllib.parse` -/

/-- Characters allowed in a URL scheme (`urllib.parse.scheme_chars`). -/
def schemeChar (c : Char) : Bool :=
  c.isAlphanum || c == '+' || c == '-' || c == '.'

/-- The components of `urllib.parse.urlsplit` that the script reads. -/
structure UrlParts where
  scheme : List Char
  netloc : List Char
  path : List Char
  query : List Char
  fragment : List Char

/-- First stage of `urlsplit`: split off the scheme at the first `:`
when the prefix is a nonempty scheme token starting with a letter;
otherwise leave the URL untouched. -/
def schemeSplit (url : List Char) : List Char × List Char :=
  match splitFirst ':' url with
  | some (bef, aft) =>
      if bef ≠ [] ∧ (bef.headD ' ').isAlpha = true ∧ bef.all schemeChar = true
      then (bef.map Char.toLower, aft) else ([], url)
  | none => ([], url)

/-- Second stage of `urlsplit`: when the remainder starts with `//`, the
netloc runs up to the first of `/?#`. -/
def netlocSplit (u : List Char) : List Char × List Char :=
  if u.take 2 = ['/', '/'] then takeUntilAny ['/', '?', '#'] (u.drop 2)
  else ([], u)

/-- Third stage of `urlsplit`: split off the fragment at the first `#`. -/
def fragSplit (u : List Char) : List Char × List Char :=
  match splitFirst '#' u with
  | some p => p
  | none => (u, [])

/-- Fourth stage of `urlsplit`: split the path from the query at the
first `?`. -/
def querySplit (u : List Char) : List Char × List Char :=
  match splitFirst '?' u with
  | some p => p
  | none => (u, [])

/-- Model of `urllib.parse.urlsplit` (documented behaviour, no
percent-decoding), staged exactly as CPython stages it: scheme, then
netloc, then fragment, then query; the rest is the path. -/
def urlsplit (url : List Char) : UrlParts :=
  let su := schemeSplit url
  let nu := netlocSplit su.2
  let uf := fragSplit nu.2
  let pq := querySplit uf.1
  ⟨su.1, nu.1, pq.1, pq.2, uf.2⟩

/-- Boolean character membership (Python `c in s`), kept as a plain
structural recursion. -/
def containsChar (c : Char) : List Char → Bool
  | [] => false
  | d :: rest => d == c || containsChar c rest

/-- The path segment after the last `/` (the whole path when it has no
`/`). -/
def afterLastSlash (p : List Char) : List Char :=
  (p.reverse.takeWhile (fun c => c != '/')).reverse

/-- Model of `urllib.parse._splitparams` as `urlparse` applies it to the
path (keeping only the path half): when the path contains `;`, drop
everything from the first `;` of the segment after the last `/` (from
the first `;` of the whole path when it has no `/`); a path whose last
segment has no `;` is returned unchanged. -/
def splitparams (p : List Char) : List Char :=
  if containsChar ';' p then
    if containsChar '/' p then
      if containsChar ';' (afterLastSlash p) then
        p.take (p.length - (afterLastSlash p).length) ++
          (takeUntilAny [';'] (afterLastSlash p)).1
      else p
    else (takeUntilAny [';'] p).1
  else p

/-- Model of `urllib.parse.urlparse` as the script reads it: `urlsplit`
with the `;params` suffix split off the path; the `hostname` and `query`
attributes are those of `urlsplit`. -/
def urlparse (url : List Char) : UrlParts :=
  let u := urlsplit url
  ⟨u.scheme, u.netloc, splitparams u.path, u.query, u.fragment⟩

/-- Model of `ParseResult.hostname`: strip user info (after the last
`@`), strip the port (after the first `:`), lowercase; `none` when
empty. -/
def hostFromNetloc (netloc : List Char) : Option (List Char) :=
  let hostinfo := (netloc.reverse.takeWhile (· != '@')).reverse
  let host := hostinfo.takeWhile (· != ':')
  if host.isEmpty then none else some (host.map Char.toLower)

/-- Model of `urllib.parse.parse_qsl` with default options (blank values
dropped, fields without `=` dropped, separator `&`, no unquoting). -/
def parse_qsl (qs : List Char) : List (List Char × List Char) :=
  (splitOnChar '&' qs).filterMap fun nv =>
    match splitFirst '=' nv with
    | none => none
    | some p => if p.2.isEmpty then none else some p

/-- Model of `parse_qs(query).get('v', [None])[0]`: the first value bound
to key `v`, if any. -/
def getVParam (qs : List Char) : Option (List Char) :=
  ((parse_qsl qs).find? fun p => p.1 == ['v']).map Prod.snd

/-! ## `extract_video_id` -/

/-- Model of Python `str.isalnum()` (ASCII range; the recognised video
ids are ASCII): nonempty and all characters alphanumeric. -/
def pyIsAlnum (l : List Char) : Bool :=
  !l.isEmpty && l.all Char.isAlphanum

/-- The hostnames recognised for `/watch` and `/embed/` URLs in
`extract_video_id`. -/
def ytHosts : List (List Char) :=
  ["www.youtube.com".data, "youtube.com".data, "m.youtube.com".data]

/-- Model of Python `str.startswith(pat)`. -/
def startsWithList : List Char → List Char → Bool
  | [], _ => true
  | p :: ps, l =>
      match l with
      | [] => false
      | c :: cs => p == c && startsWithList ps cs

/-- The URL half of `extract_video_id`: the branching on the parsed URL
(`parsed = urlparse(url_or_id)` and the `if`/`elif` chain below it).
The `/embed/` branch indexes `path.split('/')[2]`, which the
`startswith('/embed/')` guard makes safe; the model uses the `Option`
index for it. -/
def extractFromHost (u : UrlParts) (h : List Char) : Option String :=
  if h ∈ ytHosts then
    if u.path = "/watch".data then (getVParam u.query).map String.mk
    else if startsWithList "/embed/".data u.path then
      ((splitOnChar '/' u.path)[2]?).map String.mk
    else none
  else if h = "youtu.be".data then some (String.mk (u.path.drop 1))
  else none

/-- Dispatch on whether the parsed URL has a hostname (`parsed.hostname`
is `None` exactly when the netloc holds no host). -/
def extractFromUrl (u : UrlParts) : Option String :=
  match hostFromNetloc u.netloc with
  | some h => extractFromHost u h
  | none => none

/-- Embedding of `extract_video_id` (get_yt_transcript.py lines 14-28):
return the input unchanged when it is an 11-character alphanumeric id,
otherwise parse it with `urlparse` and branch on hostname and path. -/
def extract_video_id (s : String) : Option String :=
  if s.data.length = 11 ∧ pyIsAlnum s.data = true then some s
  else extractFromUrl (urlparse s.data)

/-! ## Time formatter (`format_time_srt`, lines 30-36) -/

/-- Decimal digit character. -/
def digitChar (n : Nat) : Char := Char.ofNat (48 + n)

/-- Fuel-driven decimal digit accumulator (`fuel` bounds the number of
digits; `natRepr` supplies enough). -/
def natDigitsAux : Nat → Nat → List Char → List Char
  | 0, _, acc => acc
  | fuel + 1, n, acc =>
      if n < 10 then digitChar n :: acc
      else natDigitsAux fuel (n / 10) (digitChar (n % 10) :: acc)

/-- Model of Python `str(n)` for a natural number. -/
def natRepr (n : Nat) : List Char := natDigitsAux (n + 1) n []

/-- Model of the f-string `{n:0wd}` for a natural: zero-pad the decimal
representation on the left to width `w` (never truncates). -/
def padNat (w : Nat) (n : Nat) : List Char :=
  List.replicate (w - (natRepr n).length) '0' ++ natRepr n

/-- Model of the f-string `{n:0wd}` for an integer; the sign counts
toward the width, as in Python. -/
def padInt (w : Nat) (n : Int) : List Char :=
  if n < 0 then '-' :: padNat (w - 1) n.natAbs else padNat w n.toNat

/-- Python's `%` on numbers (sign of the divisor): `a - b * ⌊a / b⌋`. -/
def pymod (a b : ℚ) : ℚ := a - b * ⌊a / b⌋

/-- Embedding of `format_time_srt` (lines 30-36).  Python floats are
modelled as exact rationals; `//` is `⌊·⌋` of the quotient and every
`int(...)` argument here is non-negative (each is a floor-mod residue),
so `int` truncation coincides with `⌊·⌋`. -/
def format_time_srt (seconds : ℚ) : String :=
  let hours : ℤ := ⌊seconds / 3600⌋
  let minutes : ℤ := ⌊pymod seconds 3600 / 60⌋
  let secs : ℤ := ⌊pymod seconds 60⌋
  let millis : ℤ := ⌊pymod seconds 1 * 1000⌋
  String.mk (padInt 2 hours ++ [':'] ++ padInt 2 minutes ++ [':'] ++
    padInt 2 secs ++ [','] ++ padInt 3 millis)

/-- Reference formatter written from the specification's words: hours =
floor(seconds/3600); the remainder is what hours leave of the offset;
minutes = floor(remainder/60); seconds = floor of what minutes leave;
milliseconds = floor(fractional part * 1000); each field zero-padded
(2 digits for H/M/S, 3 for milliseconds). -/
def formatTimeRef (seconds : ℚ) : String :=
  String.mk (padInt 2 ⌊seconds / 3600⌋ ++ [':'] ++
    padInt 2 ⌊(seconds - 3600 * ⌊seconds / 3600⌋) / 60⌋ ++ [':'] ++
    padInt 2 ⌊seconds - 3600 * ⌊seconds / 3600⌋ -
      60 * ⌊(seconds - 3600 * ⌊seconds / 3600⌋) / 60⌋⌋ ++ [','] ++
    padInt 3 ⌊Int.fract seconds * 1000⌋)

/-! ## Timed text entries and the rendering loops -/

/-- One timed text entry as returned by the fetcher: keys `start`,
`duration`, `text` of the raw transcript dict. -/
structure Entry where
  start : ℚ
  duration : ℚ
  text : String

/-- Model of Python `str.strip()`: drop whitespace from both ends. -/
def pyStrip (s : String) : String :=
  String.mk (((s.data.dropWhile Char.isWhitespace).reverse.dropWhile
    Char.isWhitespace).reverse)

/-- State of one rendering `for` loop: the transcript list (the Python
list object), the loop position, and the accumulator that the body
appends to. -/
structure LoopState (α : Type) where
  store : List Entry
  idx : Nat
  out : List α

/-- One iteration of a rendering loop: read the current entry (no
write to the store), append the body's output, advance. -/
def loopStep {α : Type} (f : Nat → Entry → List α) (s : LoopState α) : LoopState α :=
  match s.store[s.idx]? with
  | none => s
  | some e => ⟨s.store, s.idx + 1, s.out ++ f s.idx e⟩

/-- Run `n` iterations of a rendering loop. -/
def loopRun {α : Type} (f : Nat → Entry → List α) : Nat → LoopState α → LoopState α
  | 0, s => s
  | n + 1, s => loopRun f n (loopStep f s)

/-- Run a rendering loop over a whole transcript. -/
def runLoop {α : Type} (f : Nat → Entry → List α) (ts : List Entry) : LoopState α :=
  loopRun f ts.length ⟨ts, 0, []⟩

/-- The four lines one entry contributes to the SRT output, for 1-based
counter `i`. -/
def srtBlock (i : Nat) (e : Entry) : List String :=
  [String.mk (natRepr i),
   format_time_srt e.start ++ " --> " ++ format_time_srt (e.start + e.duration),
   pyStrip e.text,
   ""]

/-- Body of the `create_srt` loop (`enumerate(transcript_data, 1)` gives
counter `i + 1` at 0-based position `i`). -/
def srtF (i : Nat) (e : Entry) : List String := srtBlock (i + 1) e

/-- Body of the `create_markdown` loop: keep the stripped text only when
it is nonempty. -/
def mdF (_ : Nat) (e : Entry) : List String :=
  if pyStrip e.text = "" then [] else [pyStrip e.text]

/-- One record of the structured (JSON) rendering: keys `in_ts`,
`out_ts`, `text`. -/
structure SrtRecord where
  in_ts : String
  out_ts : String
  text : String
  deriving DecidableEq

/-- Body of the `create_json` loop. -/
def jsonF (_ : Nat) (e : Entry) : List SrtRecord :=
  [⟨format_time_srt e.start, format_time_srt (e.start + e.duration), pyStrip e.text⟩]

/-- Embedding of `create_srt` (lines 38-51): run the loop, join the
accumulated lines with newlines. -/
def create_srt (ts : List Entry) : String :=
  String.intercalate "\n" (runLoop srtF ts).out

/-- Embedding of `create_markdown` (lines 53-61). -/
def create_markdown (ts : List Entry) : String :=
  String.intercalate "\n" (runLoop mdF ts).out

/-- The record list `json_data` built by `create_json` (lines 63-75). -/
def jsonRecords (ts : List Entry) : List SrtRecord :=
  (runLoop jsonF ts).out

/-! ## `json.dumps(..., indent=2, ensure_ascii=False)` for the record list -/

/-- Lowercase hexadecimal digit character. -/
def hexDigit (n : Nat) : Char :=
  if n < 10 then digitChar n else Char.ofNat (87 + n)

/-- Escaping of one character by `json.dumps` with
`ensure_ascii=False`: `"`, `\` and the named control characters get
two-character escapes, remaining control characters get `\u00xx`, and
everything else is passed through literally. -/
def escapeChar (c : Char) : List Char :=
  if c = '"' then ['\\', '"']
  else if c = '\\' then ['\\', '\\']
  else if c = '\n' then ['\\', 'n']
  else if c = '\t' then ['\\', 't']
  else if c = '\r' then ['\\', 'r']
  else if c = Char.ofNat 8 then ['\\', 'b']
  else if c = Char.ofNat 12 then ['\\', 'f']
  else if c.toNat < 32 then
    ['\\', 'u', '0', '0', hexDigit (c.toNat / 16), hexDigit (c.toNat % 16)]
  else [c]

/-- JSON escaping of a whole string body. -/
def escapeStr (l : List Char) : List Char := l.flatMap escapeChar

/-- A JSON string literal: quotes around the escaped body. -/
def quoteStr (s : String) : List Char :=
  '"' :: escapeStr s.data ++ ['"']

/-- The five output lines of one record in `json.dumps(..., indent=2)`
layout; the closing brace carries a comma unless the record is the
last. -/
def recordLines (r : SrtRecord) (last : Bool) : List (List Char) :=
  ["  \x7b".data,
   "    \"in_ts\": ".data ++ quoteStr r.in_ts ++ [','],
   "    \"out_ts\": ".data ++ quoteStr r.out_ts ++ [','],
   "    \"text\": ".data ++ quoteStr r.text,
   if last then "  \x7d".data else "  \x7d,".data]

/-- The record lines of a whole list, comma-separated as `json.dumps`
does. -/
def jsonLines : List SrtRecord → List (List Char)
  | [] => []
  | [r] => recordLines r true
  | r :: rest => recordLines r false ++ jsonLines rest

/-- Join lines with a separator character (used with `'\n'`). -/
def intercalateChar (c : Char) : List (List Char) → List Char
  | [] => []
  | [l] => l
  | l :: ls => l ++ c :: intercalateChar c ls

/-- Model of `json.dumps(rs, indent=2, ensure_ascii=False)` for a list
of three-string-field records: `[]` for the empty list, otherwise the
bracket lines and record lines joined by newlines. -/
def dumpsRecords (rs : List SrtRecord) : List Char :=
  match rs with
  | [] => "[]".data
  | _ :: _ => intercalateChar '\n' ("[".data :: (jsonLines rs ++ ["]".data]))

/-- Embedding of `create_json` (lines 63-75): serialise the record
list. -/
def create_json (ts : List Entry) : String :=
  String.mk (dumpsRecords (jsonRecords ts))

/-! ## A parser for the structured output (for the round-trip claim) -/

/-- Value of a hexadecimal digit character. -/
def hexVal (c : Char) : Option Nat :=
  if '0' ≤ c ∧ c ≤ '9' then some (c.toNat - 48)
  else if 'a' ≤ c ∧ c ≤ 'f' then some (c.toNat - 87)
  else if 'A' ≤ c ∧ c ≤ 'F' then some (c.toNat - 55)
  else none

/-- Undo JSON string escaping. -/
def unescapeStr : List Char → Option (List Char)
  | [] => some []
  | c :: rest =>
      if c = '\\' then
        match rest with
        | [] => none
        | e :: rs =>
            if e = '"' then (unescapeStr rs).map ('"' :: ·)
            else if e = '\\' then (unescapeStr rs).map ('\\' :: ·)
            else if e = 'n' then (unescapeStr rs).map ('\n' :: ·)
            else if e = 't' then (unescapeStr rs).map ('\t' :: ·)
            else if e = 'r' then (unescapeStr rs).map ('\r' :: ·)
            else if e = 'b' then (unescapeStr rs).map (Char.ofNat 8 :: ·)
            else if e = 'f' then (unescapeStr rs).map (Char.ofNat 12 :: ·)
            else if e = 'u' then
              match rs with
              | h1 :: h2 :: h3 :: h4 :: rs2 =>
                  match hexVal h1, hexVal h2, hexVal h3, hexVal h4 with
                  | some a, some b, some x, some y =>
                      (unescapeStr rs2).map
                        (Char.ofNat (((a * 16 + b) * 16 + x) * 16 + y) :: ·)
                  | _, _, _, _ => none
              | _ => none
            else none
      else (unescapeStr rest).map (c :: ·)

/-- Strip an expected leading pattern. -/
def stripLead : List Char → List Char → Option (List Char)
  | [], l => some l
  | _ :: _, [] => none
  | p :: ps, c :: cs => if c = p then stripLead ps cs else none

/-- Strip the closing quote (and the comma, when expected) from the end
of a value. -/
def peelTail (comma : Bool) (l : List Char) : Option (List Char) :=
  if comma then
    match l.reverse with
    | ',' :: '"' :: rr => some rr.reverse
    | _ => none
  else
    match l.reverse with
    | '"' :: rr => some rr.reverse
    | _ => none

/-- Parse one `"key": "value"` line: strip the fixed prefix (which ends
with the opening quote), strip the closing quote and optional comma,
unescape the body. -/
def parseKeyLine (pre : List Char) (comma : Bool) (line : List Char) : Option (List Char) :=
  match stripLead pre line with
  | none => none
  | some rest =>
      match peelTail comma rest with
      | none => none
      | some esc => unescapeStr esc

/-- Parse a sequence of five-line record groups. -/
def parseRecLines : List (List Char) → Option (List SrtRecord)
  | [] => some []
  | l1 :: l2 :: l3 :: l4 :: l5 :: rest =>
      if l1 = "  \x7b".data then
        match parseKeyLine "    \"in_ts\": \"".data true l2,
              parseKeyLine "    \"out_ts\": \"".data true l3,
              parseKeyLine "    \"text\": \"".data false l4 with
        | some a, some b, some c =>
            if (rest.isEmpty && (l5 == "  \x7d".data)) ||
               (!rest.isEmpty && (l5 == "  \x7d,".data)) then
              (parseRecLines rest).map (⟨String.mk a, String.mk b, String.mk c⟩ :: ·)
            else none
        | _, _, _ => none
      else none
  | _ => none

/-- Parse the structured output back into records: either the empty
array, or bracket lines around five-line record groups. -/
def parseJsonRecords (s : String) : Option (List SrtRecord) :=
  if s.data = "[]".data then some []
  else
    match splitOnChar '\n' s.data with
    | [] => none
    | first :: restLines =>
        if first = "[".data ∧ restLines.getLast? = some "]".data then
          parseRecLines restLines.dropLast
        else none

/-! ## Orchestration (`main`, lines 77-143) -/

/-- Outcome of the fetch/render/write phase (the body of the outer
`try`): success, or any raised error with its message.  Fetching,
rendering and the three file writes all happen inside this block. -/
inductive PipeOutcome where
  | success : PipeOutcome
  | failure (msg : String) : PipeOutcome
  deriving DecidableEq

/-- The inputs `main` branches on: the argument vector (element 0 is the
program name), whether `youtube_transcript_api` imports, and the outcome
of the fetch/render/write phase. -/
structure MainInput where
  argv : List String
  importOk : Bool
  pipeline : PipeOutcome

/-- Exit code and stderr lines of a `main` run. -/
structure MainResult where
  exitCode : Nat
  stderrLines : List String

/-- Embedding of `main`'s control flow: usage check, import check,
identifier resolution (`if not vid` also rejects an empty-string id),
then the guarded fetch/render/write phase whose every error is caught,
reported and turned into exit code 1. -/
def mainRun (inp : MainInput) : MainResult :=
  if inp.argv.length < 2 then
    ⟨1, ["Usage: get-yt-transcript <YouTube-URL-or-ID> [optional-local-video-file]"]⟩
  else if inp.importOk = false then
    ⟨1, ["❌ youtube-transcript-api not installed. Run: pip install youtube-transcript-api"]⟩
  else
    match extract_video_id (inp.argv.getD 1 "") with
    | none =>
        ⟨1, ["⚠︎ Couldn't extract video ID from '" ++ inp.argv.getD 1 "" ++ "'"]⟩
    | some vid =>
        if vid = "" then
          ⟨1, ["⚠︎ Couldn't extract video ID from '" ++ inp.argv.getD 1 "" ++ "'"]⟩
        else
          match inp.pipeline with
          | PipeOutcome.success => ⟨0, []⟩
          | PipeOutcome.failure msg => ⟨1, ["❌ Error: " ++ msg]⟩

/-! ## Lemmas about the scanners -/

theorem splitFirst_append_some {sep : Char} {l₁ a b : List Char}
    (h : splitFirst sep l₁ = some (a, b)) (l₂ : List Char) :
    splitFirst sep (l₁ ++ l₂) = some (a, b ++ l₂) := by
  induction l₁ generalizing a with
  | nil => simp [splitFirst] at h
  | cons c rest ih =>
      by_cases hc : c = sep
      · simp only [splitFirst, if_pos hc, Option.some.injEq, Prod.mk.injEq] at h
        rcases h with ⟨rfl, rfl⟩
        simp [splitFirst, hc]
      · simp only [splitFirst, if_neg hc] at h
        cases hsr : splitFirst sep rest with
        | none => rw [hsr] at h; simp at h
        | some p =>
            obtain ⟨p1, p2⟩ := p
            rw [hsr] at h
            simp only [Option.map_some', Option.some.injEq, Prod.mk.injEq] at h
            rcases h with ⟨rfl, rfl⟩
            rw [List.cons_append]
            simp [splitFirst, hc, ih hsr]

theorem splitFirst_append_none {sep : Char} {l₁ : List Char}
    (h : splitFirst sep l₁ = none) (l₂ : List Char) :
    splitFirst sep (l₁ ++ l₂) =
      (splitFirst sep l₂).map fun p => (l₁ ++ p.1, p.2) := by
  induction l₁ with
  | nil => simp [splitFirst]
  | cons c rest ih =>
      by_cases hc : c = sep
      · simp [splitFirst, if_pos hc] at h
      · simp only [splitFirst, if_neg hc] at h
        have hrest : splitFirst sep rest = none := by
          cases hsr : splitFirst sep rest with
          | none => rfl
          | some p => rw [hsr] at h; simp at h
        rw [List.cons_append]
        simp only [splitFirst, if_neg hc, ih hrest, Option.map_map]
        cases splitFirst sep l₂ with
        | none => rfl
        | some p => simp

theorem splitFirst_eq_none {sep : Char} {l : List Char}
    (h : ∀ c ∈ l, c ≠ sep) : splitFirst sep l = none := by
  induction l with
  | nil => rfl
  | cons c rest ih =>
      simp only [splitFirst, if_neg (h c (by simp))]
      rw [ih fun d hd => h d (by simp [hd])]
      rfl

theorem splitOnChar_no_sep {sep : Char} {l : List Char}
    (h : ∀ c ∈ l, c ≠ sep) : splitOnChar sep l = [l] := by
  induction l with
  | nil => rfl
  | cons c rest ih =>
      simp only [splitOnChar, if_neg (h c (by simp))]
      rw [ih fun d hd => h d (by simp [hd])]

theorem splitOnChar_append_sep {sep : Char} {l r : List Char}
    (h : ∀ c ∈ l, c ≠ sep) :
    splitOnChar sep (l ++ sep :: r) = l :: splitOnChar sep r := by
  induction l with
  | nil => simp [splitOnChar]
  | cons c rest ih =>
      rw [List.cons_append]
      simp only [splitOnChar, if_neg (h c (by simp))]
      rw [ih fun d hd => h d (by simp [hd])]

theorem takeUntilAny_append {stops : List Char} {l₁ a b : List Char}
    (h : takeUntilAny stops l₁ = (a, b)) (hb : b ≠ []) (l₂ : List Char) :
    takeUntilAny stops (l₁ ++ l₂) = (a, b ++ l₂) := by
  induction l₁ generalizing a with
  | nil =>
      simp only [takeUntilAny, Prod.mk.injEq] at h
      exact absurd h.2.symm hb
  | cons c rest ih =>
      by_cases hc : c ∈ stops
      · simp only [takeUntilAny, if_pos hc, Prod.mk.injEq] at h
        rcases h with ⟨rfl, rfl⟩
        rw [List.cons_append]
        simp [takeUntilAny, hc]
      · simp only [takeUntilAny, if_neg hc, Prod.mk.injEq] at h
        rcases h with ⟨rfl, hb2⟩
        have hx : takeUntilAny stops rest = ((takeUntilAny stops rest).1, b) := by
          rw [← hb2]
        rw [List.cons_append]
        simp [takeUntilAny, hc, ih hx]

/-! ## Computing `extract_video_id` on the recognised URL shapes -/

/-- Characters that never act as URL metacharacters: appending a string
of such characters to a URL prefix does not disturb any of the splits
`urlsplit` and `parse_qs` perform. -/
def urlSafeChar (c : Char) : Prop :=
  c ≠ ':' ∧ c ≠ '/' ∧ c ≠ '?' ∧ c ≠ '#' ∧ c ≠ '@' ∧ c ≠ '&' ∧ c ≠ '=' ∧ c ≠ ';'

theorem alnum_urlSafe {c : Char} (h : c.isAlphanum = true) : urlSafeChar c := by
  refine ⟨?_, ?_, ?_, ?_, ?_, ?_, ?_, ?_⟩ <;> (rintro rfl; revert h; decide)

theorem idChar_urlSafe {c : Char}
    (h : c.isAlphanum = true ∨ c = '-' ∨ c = '_') : urlSafeChar c := by
  rcases h with h | rfl | rfl
  · exact alnum_urlSafe h
  · refine ⟨?_, ?_, ?_, ?_, ?_, ?_, ?_, ?_⟩ <;> decide
  · refine ⟨?_, ?_, ?_, ?_, ?_, ?_, ?_, ?_⟩ <;> decide

theorem containsChar_eq_false {c : Char} {l : List Char}
    (h : ∀ d ∈ l, d ≠ c) : containsChar c l = false := by
  induction l with
  | nil => rfl
  | cons d rest ih =>
      show (d == c || containsChar c rest) = false
      rw [ih fun e he => h e (List.mem_cons_of_mem d he), Bool.or_false,
          beq_eq_false_iff_ne]
      exact h d (List.mem_cons_self d rest)

theorem splitparams_no_semi {p : List Char} (h : ∀ d ∈ p, d ≠ ';') :
    splitparams p = p := by
  unfold splitparams
  rw [containsChar_eq_false h, if_neg Bool.false_ne_true]

theorem splitparams_watch : splitparams "/watch".data = "/watch".data := by decide

theorem urlsplit_watch {r : List Char} (hr : ∀ c ∈ r, urlSafeChar c) :
    urlsplit ("https://www.youtube.com/watch?v=".data ++ r) =
      ⟨"https".data, "www.youtube.com".data, "/watch".data, "v=".data ++ r, []⟩ := by
  have hf : fragSplit ("/watch?v=".data ++ r) = ("/watch?v=".data ++ r, []) := by
    unfold fragSplit
    rw [@splitFirst_append_none '#' "/watch?v=".data (by decide) r,
        splitFirst_eq_none fun c hc => (hr c hc).2.2.2.1]
    rfl
  show UrlParts.mk "https".data "www.youtube.com".data
      (querySplit (fragSplit ("/watch?v=".data ++ r)).1).1
      (querySplit (fragSplit ("/watch?v=".data ++ r)).1).2
      (fragSplit ("/watch?v=".data ++ r)).2 = _
  rw [hf]
  rfl

theorem urlsplit_embed {r : List Char} (hr : ∀ c ∈ r, urlSafeChar c) :
    urlsplit ("https://www.youtube.com/embed/".data ++ r) =
      ⟨"https".data, "www.youtube.com".data, "/embed/".data ++ r, [], []⟩ := by
  have hf : fragSplit ("/embed/".data ++ r) = ("/embed/".data ++ r, []) := by
    unfold fragSplit
    rw [@splitFirst_append_none '#' "/embed/".data (by decide) r,
        splitFirst_eq_none fun c hc => (hr c hc).2.2.2.1]
    rfl
  have hq : querySplit ("/embed/".data ++ r) = ("/embed/".data ++ r, []) := by
    unfold querySplit
    rw [@splitFirst_append_none '?' "/embed/".data (by decide) r,
        splitFirst_eq_none fun c hc => (hr c hc).2.2.1]
    rfl
  show UrlParts.mk "https".data "www.youtube.com".data
      (querySplit (fragSplit ("/embed/".data ++ r)).1).1
      (querySplit (fragSplit ("/embed/".data ++ r)).1).2
      (fragSplit ("/embed/".data ++ r)).2 = _
  rw [hf]
  show UrlParts.mk "https".data "www.youtube.com".data
      (querySplit ("/embed/".data ++ r)).1
      (querySplit ("/embed/".data ++ r)).2 [] = _
  rw [hq]

theorem urlsplit_short {r : List Char} (hr : ∀ c ∈ r, urlSafeChar c) :
    urlsplit ("https://youtu.be/".data ++ r) =
      ⟨"https".data, "youtu.be".data, "/".data ++ r, [], []⟩ := by
  have hf : fragSplit ("/".data ++ r) = ("/".data ++ r, []) := by
    unfold fragSplit
    rw [@splitFirst_append_none '#' "/".data (by decide) r,
        splitFirst_eq_none fun c hc => (hr c hc).2.2.2.1]
    rfl
  have hq : querySplit ("/".data ++ r) = ("/".data ++ r, []) := by
    unfold querySplit
    rw [@splitFirst_append_none '?' "/".data (by decide) r,
        splitFirst_eq_none fun c hc => (hr c hc).2.2.1]
    rfl
  show UrlParts.mk "https".data "youtu.be".data
      (querySplit (fragSplit ("/".data ++ r)).1).1
      (querySplit (fragSplit ("/".data ++ r)).1).2
      (fragSplit ("/".data ++ r)).2 = _
  rw [hf]
  show UrlParts.mk "https".data "youtu.be".data
      (querySplit ("/".data ++ r)).1
      (querySplit ("/".data ++ r)).2 [] = _
  rw [hq]

theorem urlparse_watch {r : List Char} (hr : ∀ c ∈ r, urlSafeChar c) :
    urlparse ("https://www.youtube.com/watch?v=".data ++ r) =
      ⟨"https".data, "www.youtube.com".data, "/watch".data, "v=".data ++ r, []⟩ := by
  unfold urlparse
  rw [urlsplit_watch hr]
  show UrlParts.mk "https".data "www.youtube.com".data
      (splitparams "/watch".data) ("v=".data ++ r) [] = UrlParts.mk "https".data
      "www.youtube.com".data "/watch".data ("v=".data ++ r) []
  rw [splitparams_watch]

theorem urlparse_embed {r : List Char} (hr : ∀ c ∈ r, urlSafeChar c) :
    urlparse ("https://www.youtube.com/embed/".data ++ r) =
      ⟨"https".data, "www.youtube.com".data, "/embed/".data ++ r, [], []⟩ := by
  have hsemi : ∀ d ∈ "/embed/".data ++ r, d ≠ ';' := by
    intro d hd
    rcases List.mem_append.mp hd with h | h
    · rintro rfl
      exact absurd h (by decide)
    · exact (hr d h).2.2.2.2.2.2.2
  unfold urlparse
  rw [urlsplit_embed hr]
  show UrlParts.mk "https".data "www.youtube.com".data
      (splitparams ("/embed/".data ++ r)) [] [] = UrlParts.mk "https".data
      "www.youtube.com".data ("/embed/".data ++ r) [] []
  rw [splitparams_no_semi hsemi]

theorem urlparse_short {r : List Char} (hr : ∀ c ∈ r, urlSafeChar c) :
    urlparse ("https://youtu.be/".data ++ r) =
      ⟨"https".data, "youtu.be".data, "/".data ++ r, [], []⟩ := by
  have hsemi : ∀ d ∈ "/".data ++ r, d ≠ ';' := by
    intro d hd
    rcases List.mem_append.mp hd with h | h
    · rintro rfl
      exact absurd h (by decide)
    · exact (hr d h).2.2.2.2.2.2.2
  unfold urlparse
  rw [urlsplit_short hr]
  show UrlParts.mk "https".data "youtu.be".data
      (splitparams ("/".data ++ r)) [] [] = UrlParts.mk "https".data
      "youtu.be".data ("/".data ++ r) [] []
  rw [splitparams_no_semi hsemi]

theorem extract_raw {id : String} (h11 : id.data.length = 11)
    (hal : id.data.all Char.isAlphanum = true) :
    extract_video_id id = some id := by
  have hemp : id.data.isEmpty = false := by
    cases h : id.data with
    | nil => rw [h] at h11; simp at h11
    | cons c cs => rfl
  have hal2 : pyIsAlnum id.data = true := by
    unfold pyIsAlnum
    rw [hemp, hal]
    rfl
  unfold extract_video_id
  rw [if_pos ⟨h11, hal2⟩]

theorem extract_watch {id : String} (hid : ∀ c ∈ id.data, urlSafeChar c)
    (hne : id.data ≠ []) :
    extract_video_id ("https://www.youtube.com/watch?v=" ++ id) = some id := by
  obtain ⟨c, cs, hd⟩ : ∃ c cs, id.data = c :: cs := by
    cases h : id.data with
    | nil => exact absurd h hne
    | cons c cs => exact ⟨c, cs, rfl⟩
  have halnum : pyIsAlnum ("https://www.youtube.com/watch?v=".data ++ id.data) = false := by
    unfold pyIsAlnum
    rw [List.all_append,
      show ("https://www.youtube.com/watch?v=".data.all Char.isAlphanum) = false from by decide]
    simp
  have hcond : ¬ (("https://www.youtube.com/watch?v=".data ++ id.data).length = 11 ∧
      pyIsAlnum ("https://www.youtube.com/watch?v=".data ++ id.data) = true) := by
    intro hc
    rw [halnum] at hc
    exact Bool.false_ne_true hc.2
  have hsz : splitOnChar '&' ("v=".data ++ id.data) = ["v=".data ++ id.data] := by
    apply splitOnChar_no_sep
    intro d hd2
    rcases List.mem_append.mp hd2 with h | h
    · rintro rfl; simp at h
    · exact (hid d h).2.2.2.2.2.1
  have hmk : (⟨c :: cs⟩ : String) = id := by rw [← hd]
  unfold extract_video_id
  rw [String.data_append, if_neg hcond, urlparse_watch hid]
  show (getVParam ("v=".data ++ id.data)).map String.mk = some id
  unfold getVParam parse_qsl
  rw [hsz, hd]
  exact congrArg some hmk

theorem extract_embed {id : String} (hid : ∀ c ∈ id.data, urlSafeChar c) :
    extract_video_id ("https://www.youtube.com/embed/" ++ id) = some id := by
  have halnum : pyIsAlnum ("https://www.youtube.com/embed/".data ++ id.data) = false := by
    unfold pyIsAlnum
    rw [List.all_append,
      show ("https://www.youtube.com/embed/".data.all Char.isAlphanum) = false from by decide]
    simp
  have hcond : ¬ (("https://www.youtube.com/embed/".data ++ id.data).length = 11 ∧
      pyIsAlnum ("https://www.youtube.com/embed/".data ++ id.data) = true) := by
    intro hc
    rw [halnum] at hc
    exact Bool.false_ne_true hc.2
  have hsp : splitOnChar '/' ("/embed/".data ++ id.data) = [[], "embed".data, id.data] := by
    have e1 : "/embed/".data ++ id.data =
        ([] : List Char) ++ '/' :: ("embed".data ++ '/' :: id.data) := rfl
    rw [e1, splitOnChar_append_sep (by simp),
        splitOnChar_append_sep (fun d hd2 => by rintro rfl; simp at hd2),
        splitOnChar_no_sep (fun d hd2 => (hid d hd2).2.1)]
  unfold extract_video_id
  rw [String.data_append, if_neg hcond, urlparse_embed hid]
  show (((splitOnChar '/' ("/embed/".data ++ id.data))[2]?).map String.mk : Option String) = some id
  rw [hsp]
  rfl

theorem extract_short {id : String} (hid : ∀ c ∈ id.data, urlSafeChar c) :
    extract_video_id ("https://youtu.be/" ++ id) = some id := by
  have halnum : pyIsAlnum ("https://youtu.be/".data ++ id.data) = false := by
    unfold pyIsAlnum
    rw [List.all_append,
      show ("https://youtu.be/".data.all Char.isAlphanum) = false from by decide]
    simp
  have hcond : ¬ (("https://youtu.be/".data ++ id.data).length = 11 ∧
      pyIsAlnum ("https://youtu.be/".data ++ id.data) = true) := by
    intro hc
    rw [halnum] at hc
    exact Bool.false_ne_true hc.2
  unfold extract_video_id
  rw [String.data_append, if_neg hcond, urlparse_short hid]
  rfl

/-- The input shapes `extract_video_id` recognises, read off its
branches: a raw 11-character alphanumeric id; a recognised YouTube
hostname with (params-stripped) path `/watch` or a path starting with
`/embed/`; or the `youtu.be` hostname. -/
def recognizedShapeB (s : String) : Bool :=
  decide (s.data.length = 11 ∧ pyIsAlnum s.data = true) ||
  (match hostFromNetloc (urlparse s.data).netloc with
   | some h =>
       (decide (h ∈ ytHosts) &&
         (decide ((urlparse s.data).path = "/watch".data) ||
          startsWithList "/embed/".data (urlparse s.data).path)) ||
       decide (h = "youtu.be".data)
   | none => false)

/-- Any input outside the recognised shapes is mapped to `none`. -/
theorem extract_unrecognized {s : String} (h : recognizedShapeB s = false) :
    extract_video_id s = none := by
  unfold recognizedShapeB at h
  rw [Bool.or_eq_false_iff] at h
  obtain ⟨h1, h2⟩ := h
  rw [decide_eq_false_iff_not] at h1
  unfold extract_video_id extractFromUrl
  rw [if_neg h1]
  cases hh : hostFromNetloc (urlparse s.data).netloc with
  | none => rfl
  | some hst =>
      rw [hh] at h2
      rw [Bool.or_eq_false_iff] at h2
      obtain ⟨h3, h4⟩ := h2
      rw [decide_eq_false_iff_not] at h4
      rw [Bool.and_eq_false_iff] at h3
      show extractFromHost (urlparse s.data) hst = none
      unfold extractFromHost
      by_cases hm : hst ∈ ytHosts
      · rcases h3 with h3 | h3
        · rw [decide_eq_false_iff_not] at h3
          exact absurd hm h3
        · rw [Bool.or_eq_false_iff] at h3
          obtain ⟨h5, h6⟩ := h3
          rw [decide_eq_false_iff_not] at h5
          rw [if_pos hm, if_neg h5, if_neg (by rw [h6]; exact Bool.false_ne_true)]
      · rw [if_neg hm, if_neg h4]

/-- On a recognised `/watch` URL whose query has no usable `v`
parameter, extraction returns `none` (the `.get('v', [None])[0]` default
path) rather than raising. -/
theorem extract_watch_no_v {s : String} {hst : List Char}
    (hraw : ¬ (s.data.length = 11 ∧ pyIsAlnum s.data = true))
    (hh : hostFromNetloc (urlsplit s.data).netloc = some hst)
    (hm : hst ∈ ytHosts) (hp : (urlsplit s.data).path = "/watch".data)
    (hv : getVParam (urlsplit s.data).query = none) :
    extract_video_id s = none := by
  have hp2 : (urlparse s.data).path = "/watch".data := by
    show splitparams (urlsplit s.data).path = "/watch".data
    rw [hp, splitparams_watch]
  have hh2 : hostFromNetloc (urlparse s.data).netloc = some hst := hh
  have hv2 : getVParam (urlparse s.data).query = none := hv
  unfold extract_video_id extractFromUrl
  rw [if_neg hraw, hh2]
  show extractFromHost (urlparse s.data) hst = none
  unfold extractFromHost
  rw [if_pos hm, if_pos hp2, hv2]
  rfl

/-! ## Lemmas about the time formatter -/

theorem pymod_nonneg (a : ℚ) {b : ℚ} (hb : 0 < b) : 0 ≤ pymod a b := by
  unfold pymod
  have h2 : ((⌊a / b⌋ : ℚ)) ≤ a / b := Int.floor_le _
  have h3 : b * ((⌊a / b⌋ : ℚ)) ≤ b * (a / b) :=
    mul_le_mul_of_nonneg_left h2 (le_of_lt hb)
  have h4 : b * (a / b) = a := by field_simp
  linarith

theorem pymod_lt (a : ℚ) {b : ℚ} (hb : 0 < b) : pymod a b < b := by
  unfold pymod
  have h2 : a / b < (⌊a / b⌋ : ℚ) + 1 := Int.lt_floor_add_one _
  have h3 : b * (a / b) < b * ((⌊a / b⌋ : ℚ) + 1) := (mul_lt_mul_left hb).mpr h2
  have h4 : b * (a / b) = a := by field_simp
  have h5 : b * ((⌊a / b⌋ : ℚ) + 1) = b * (⌊a / b⌋ : ℚ) + b := by ring
  linarith

theorem pymod_one (a : ℚ) : pymod a 1 = Int.fract a := by
  unfold pymod
  rw [div_one, one_mul]
  rfl

/-- Reducing first modulo 3600 and then modulo 60 equals reducing modulo
60 directly (60 divides 3600). -/
theorem pymod_mod_factor (a : ℚ) :
    pymod (pymod a 3600) 60 = pymod a 60 := by
  unfold pymod
  have hq : (a - 3600 * ⌊a / 3600⌋) / 60 = a / 60 - ((60 * ⌊a / 3600⌋ : ℤ) : ℚ) := by
    push_cast
    ring
  rw [hq, Int.floor_sub_int]
  push_cast
  ring

/-- The embedded formatter agrees with the reference formatter from the
specification, for every rational input. -/
theorem format_time_srt_eq_ref (q : ℚ) : format_time_srt q = formatTimeRef q := by
  unfold format_time_srt formatTimeRef
  rw [show ⌊pymod q 60⌋ = ⌊q - 3600 * ⌊q / 3600⌋ -
        60 * ⌊(q - 3600 * ⌊q / 3600⌋) / 60⌋⌋ from
      (congrArg Int.floor (pymod_mod_factor q)).symm,
    show ⌊pymod q 1 * 1000⌋ = ⌊Int.fract q * 1000⌋ from by rw [pymod_one]]
  rfl

/-! ## Digit and padding lengths -/

theorem natDigitsAux_lt10 {f n : Nat} (acc : List Char) (hn : n < 10) (hf : 0 < f) :
    natDigitsAux f n acc = digitChar n :: acc := by
  cases f with
  | zero => exact absurd hf (lt_irrefl 0)
  | succ f => simp [natDigitsAux, hn]

theorem natDigitsAux_succ (f n : Nat) (acc : List Char) :
    natDigitsAux (f + 1) n acc =
      if n < 10 then digitChar n :: acc
      else natDigitsAux f (n / 10) (digitChar (n % 10) :: acc) := rfl

theorem natDigitsAux_two {f n : Nat} (acc : List Char) (h1 : 10 ≤ n) (h2 : n < 100)
    (hf : 2 ≤ f) :
    natDigitsAux f n acc = digitChar (n / 10) :: digitChar (n % 10) :: acc := by
  obtain ⟨g, rfl⟩ : ∃ g, f = g + 2 := ⟨f - 2, by omega⟩
  rw [show g + 2 = (g + 1) + 1 from rfl, natDigitsAux_succ, if_neg (by omega : ¬ n < 10)]
  apply natDigitsAux_lt10
  · omega
  · omega

theorem natRepr_len1 {n : Nat} (hn : n < 10) : natRepr n = [digitChar n] :=
  natDigitsAux_lt10 [] hn (by omega)

theorem natRepr_len2 {n : Nat} (h1 : 10 ≤ n) (h2 : n < 100) :
    natRepr n = [digitChar (n / 10), digitChar (n % 10)] :=
  natDigitsAux_two [] h1 h2 (by omega)

theorem natRepr_len3 {n : Nat} (h1 : 100 ≤ n) (h2 : n < 1000) :
    natRepr n = [digitChar (n / 10 / 10), digitChar (n / 10 % 10), digitChar (n % 10)] := by
  unfold natRepr
  rw [show n + 1 = ((n - 2) + 2) + 1 from by omega, natDigitsAux_succ,
    if_neg (by omega : ¬ n < 10)]
  apply natDigitsAux_two
  · omega
  · omega
  · omega

theorem padNat_two_len {n : Nat} (h : n < 100) : (padNat 2 n).length = 2 := by
  unfold padNat
  by_cases h1 : n < 10
  · rw [natRepr_len1 h1]; rfl
  · rw [natRepr_len2 (by omega) h]; rfl

theorem padNat_three_len {n : Nat} (h : n < 1000) : (padNat 3 n).length = 3 := by
  unfold padNat
  by_cases h1 : n < 10
  · rw [natRepr_len1 h1]; rfl
  · by_cases h2 : n < 100
    · rw [natRepr_len2 (by omega) h2]; rfl
    · rw [natRepr_len3 (by omega) h]; rfl

theorem padInt_two_len {n : ℤ} (h0 : 0 ≤ n) (h : n < 100) :
    (padInt 2 n).length = 2 := by
  unfold padInt
  rw [if_neg (by omega)]
  exact padNat_two_len (by omega)

theorem padInt_three_len {n : ℤ} (h0 : 0 ≤ n) (h : n < 1000) :
    (padInt 3 n).length = 3 := by
  unfold padInt
  rw [if_neg (by omega)]
  exact padNat_three_len (by omega)

/-! ## Field bounds and output width -/

theorem hours_nonneg {q : ℚ} (h0 : 0 ≤ q) : 0 ≤ ⌊q / 3600⌋ :=
  Int.floor_nonneg.mpr (div_nonneg h0 (by norm_num))

theorem hours_lt {q : ℚ} (h1 : q < 360000) : ⌊q / 3600⌋ < 100 :=
  Int.floor_lt.mpr (by rw [div_lt_iff (by norm_num : (0:ℚ) < 3600)]; norm_num; linarith)

theorem minutes_bounds (q : ℚ) :
    0 ≤ ⌊pymod q 3600 / 60⌋ ∧ ⌊pymod q 3600 / 60⌋ < 60 := by
  constructor
  · exact Int.floor_nonneg.mpr (div_nonneg (pymod_nonneg q (by norm_num)) (by norm_num))
  · refine Int.floor_lt.mpr ?_
    rw [div_lt_iff (by norm_num : (0:ℚ) < 60)]
    have := pymod_lt q (by norm_num : (0:ℚ) < 3600)
    push_cast
    linarith

theorem secs_bounds (q : ℚ) : 0 ≤ ⌊pymod q 60⌋ ∧ ⌊pymod q 60⌋ < 60 := by
  constructor
  · exact Int.floor_nonneg.mpr (pymod_nonneg q (by norm_num))
  · refine Int.floor_lt.mpr ?_
    have := pymod_lt q (by norm_num : (0:ℚ) < 60)
    push_cast
    linarith

theorem millis_bounds (q : ℚ) :
    0 ≤ ⌊pymod q 1 * 1000⌋ ∧ ⌊pymod q 1 * 1000⌋ < 1000 := by
  constructor
  · exact Int.floor_nonneg.mpr
      (mul_nonneg (pymod_nonneg q (by norm_num)) (by norm_num))
  · refine Int.floor_lt.mpr ?_
    have := pymod_lt q (by norm_num : (0:ℚ) < 1)
    push_cast
    nlinarith

/-- Below 100 hours, all four fields pad to their exact widths and the
output is precisely 12 characters. -/
theorem format_time_width {q : ℚ} (h0 : 0 ≤ q) (h1 : q < 360000) :
    (padInt 2 ⌊q / 3600⌋).length = 2 ∧
    (padInt 2 ⌊pymod q 3600 / 60⌋).length = 2 ∧
    (padInt 2 ⌊pymod q 60⌋).length = 2 ∧
    (padInt 3 ⌊pymod q 1 * 1000⌋).length = 3 ∧
    (format_time_srt q).length = 12 := by
  have e1 := padInt_two_len (hours_nonneg h0) (hours_lt h1)
  have e2 := padInt_two_len (minutes_bounds q).1
    (lt_trans (minutes_bounds q).2 (by norm_num))
  have e3 := padInt_two_len (secs_bounds q).1
    (lt_trans (secs_bounds q).2 (by norm_num))
  have e4 := padInt_three_len (millis_bounds q).1 (millis_bounds q).2
  refine ⟨e1, e2, e3, e4, ?_⟩
  show (String.mk (padInt 2 ⌊q / 3600⌋ ++ [':'] ++ padInt 2 ⌊pymod q 3600 / 60⌋ ++
    [':'] ++ padInt 2 ⌊pymod q 60⌋ ++ [','] ++ padInt 3 ⌊pymod q 1 * 1000⌋)).length = 12
  simp only [String.length, List.length_append, e1, e2, e3, e4, List.length_cons,
    List.length_nil]

/-- Evaluation scheme: once the four integer fields are known, the
output is the padded assembly. -/
theorem format_time_srt_eval (q : ℚ) (h m s ms : ℤ)
    (hh : ⌊q / 3600⌋ = h) (hm : ⌊pymod q 3600 / 60⌋ = m)
    (hs : ⌊pymod q 60⌋ = s) (hms : ⌊pymod q 1 * 1000⌋ = ms) :
    format_time_srt q = String.mk (padInt 2 h ++ [':'] ++ padInt 2 m ++ [':'] ++
      padInt 2 s ++ [','] ++ padInt 3 ms) := by
  unfold format_time_srt
  rw [hh, hm, hs, hms]

theorem format_time_at_0 : format_time_srt 0 = "00:00:00,000" := by
  rw [format_time_srt_eval 0 0 0 0 0 (by norm_num) (by unfold pymod; norm_num)
    (by unfold pymod; norm_num) (by unfold pymod; norm_num)]
  decide

theorem format_time_at_61_5 : format_time_srt 61.5 = "00:01:01,500" := by
  rw [format_time_srt_eval 61.5 0 1 1 500 (by norm_num) (by unfold pymod; norm_num)
    (by unfold pymod; norm_num) (by unfold pymod; norm_num)]
  decide

theorem format_time_at_3661_999 : format_time_srt 3661.999 = "01:01:01,999" := by
  rw [format_time_srt_eval 3661.999 1 1 1 999 (by norm_num) (by unfold pymod; norm_num)
    (by unfold pymod; norm_num) (by unfold pymod; norm_num)]
  decide

theorem format_time_at_0_0009 : format_time_srt 0.0009 = "00:00:00,000" := by
  rw [format_time_srt_eval 0.0009 0 0 0 0 (by norm_num) (by unfold pymod; norm_num)
    (by unfold pymod; norm_num) (by unfold pymod; norm_num)]
  decide

theorem format_time_at_360000 : format_time_srt 360000 = "100:00:00,000" := by
  rw [format_time_srt_eval 360000 100 0 0 0 (by norm_num) (by unfold pymod; norm_num)
    (by unfold pymod; norm_num) (by unfold pymod; norm_num)]
  decide

/-! ## Lemmas about the rendering loops -/

theorem loopStep_store {α : Type} (f : Nat → Entry → List α) (s : LoopState α) :
    (loopStep f s).store = s.store := by
  unfold loopStep
  cases s.store[s.idx]? <;> rfl

theorem loopRun_store {α : Type} (f : Nat → Entry → List α) (n : Nat) (s : LoopState α) :
    (loopRun f n s).store = s.store := by
  induction n generalizing s with
  | zero => rfl
  | succ n ih =>
      show (loopRun f n (loopStep f s)).store = s.store
      rw [ih, loopStep_store]

theorem loopRun_out {α : Type} (f : Nat → Entry → List α) (n : Nat) (s : LoopState α)
    (hs : s.store.length = s.idx + n) :
    (loopRun f n s).out =
      s.out ++ (List.enumFrom s.idx (s.store.drop s.idx)).flatMap fun p => f p.1 p.2 := by
  induction n generalizing s with
  | zero =>
      have hd : s.store.drop s.idx = [] := List.drop_eq_nil_of_le (by omega)
      rw [hd]
      show s.out = _
      simp [List.enumFrom]
  | succ n ih =>
      have hlt : s.idx < s.store.length := by omega
      have he : s.store[s.idx]? = some s.store[s.idx] := List.getElem?_eq_getElem hlt
      have hstep : loopStep f s = ⟨s.store, s.idx + 1, s.out ++ f s.idx s.store[s.idx]⟩ := by
        unfold loopStep
        rw [he]
      show (loopRun f n (loopStep f s)).out = _
      rw [hstep, ih ⟨s.store, s.idx + 1, s.out ++ f s.idx s.store[s.idx]⟩ (by simp; omega)]
      have hdrop : s.store.drop s.idx = s.store[s.idx] :: s.store.drop (s.idx + 1) :=
        List.drop_eq_getElem_cons hlt
      rw [hdrop]
      simp [List.enumFrom, List.flatMap_cons]

theorem runLoop_out {α : Type} (f : Nat → Entry → List α) (ts : List Entry) :
    (runLoop f ts).out = (List.enumFrom 0 ts).flatMap fun p => f p.1 p.2 := by
  unfold runLoop
  rw [loopRun_out f ts.length ⟨ts, 0, []⟩ (by simp)]
  simp

theorem enumFrom_succ_eq_map {α : Type} (l : List α) (n : Nat) :
    List.enumFrom (n + 1) l = (List.enumFrom n l).map fun p => (p.1 + 1, p.2) := by
  induction l generalizing n with
  | nil => rfl
  | cons x xs ih => simp [List.enumFrom, ih]

theorem enumFrom_flatMap_snd {α β : Type} (l : List α) (g : α → List β) (n : Nat) :
    ((List.enumFrom n l).flatMap fun p => g p.2) = l.flatMap g := by
  induction l generalizing n with
  | nil => rfl
  | cons x xs ih => simp [List.enumFrom, List.flatMap_cons, ih]

/-- `create_srt` is the newline-join of the four-line blocks of the
entries enumerated from 1. -/
theorem create_srt_blocks (ts : List Entry) :
    create_srt ts = String.intercalate "\n"
      ((List.enumFrom 1 ts).flatMap fun p => srtBlock p.1 p.2) := by
  unfold create_srt
  rw [runLoop_out, show (1:Nat) = 0 + 1 from rfl, enumFrom_succ_eq_map]
  rw [List.flatMap_map]
  rfl

theorem flatMap_length_four {α : Type} (l : List (Nat × Entry)) (g : Nat × Entry → List α)
    (hg : ∀ p, (g p).length = 4) : (l.flatMap g).length = 4 * l.length := by
  induction l with
  | nil => rfl
  | cons x xs ih =>
      simp only [List.flatMap_cons, List.length_append, ih, hg, List.length_cons]
      ring

theorem mdFlat_eq (ts : List Entry) : ∀ n : Nat,
    ((List.enumFrom n ts).flatMap fun p =>
      if pyStrip p.2.text = "" then [] else [pyStrip p.2.text]) =
    (ts.map fun e => pyStrip e.text).filter fun s => s ≠ "" := by
  induction ts with
  | nil => intro n; rfl
  | cons e rest ih =>
      intro n
      by_cases h : pyStrip e.text = ""
      · simp [List.enumFrom, List.flatMap_cons, h, ih]
      · simp [List.enumFrom, List.flatMap_cons, h, ih]

theorem mdLines_eq (ts : List Entry) :
    (runLoop mdF ts).out = (ts.map fun e => pyStrip e.text).filter fun s => s ≠ "" := by
  rw [runLoop_out]
  unfold mdF
  exact mdFlat_eq ts 0

theorem jsonFlat_eq (ts : List Entry) : ∀ n : Nat,
    ((List.enumFrom n ts).flatMap fun p =>
      [SrtRecord.mk (format_time_srt p.2.start)
        (format_time_srt (p.2.start + p.2.duration)) (pyStrip p.2.text)]) =
    ts.map fun e => SrtRecord.mk (format_time_srt e.start)
      (format_time_srt (e.start + e.duration)) (pyStrip e.text) := by
  induction ts with
  | nil => intro n; rfl
  | cons e rest ih => intro n; simp [List.enumFrom, List.flatMap_cons, ih]

theorem jsonRecords_eq (ts : List Entry) :
    jsonRecords ts = ts.map fun e =>
      SrtRecord.mk (format_time_srt e.start) (format_time_srt (e.start + e.duration))
        (pyStrip e.text) := by
  unfold jsonRecords
  rw [runLoop_out]
  unfold jsonF
  exact jsonFlat_eq ts 0

/-! ## Round trip of the JSON string escaping -/

theorem hexVal_hexDigit {k : Nat} (h : k < 16) : hexVal (hexDigit k) = some k := by
  interval_cases k <;> decide

theorem hexDigit_ne_newline {k : Nat} (h : k < 16) : hexDigit k ≠ '\n' := by
  interval_cases k <;> decide

theorem escapeChar_ne_newline {c d : Char} (hd : d ∈ escapeChar c) : d ≠ '\n' := by
  unfold escapeChar at hd
  split_ifs at hd with h1 h2 h3 h4 h5 h6 h7 h8
  · simp at hd; rcases hd with rfl | rfl <;> decide
  · simp at hd; rcases hd with rfl | rfl <;> decide
  · simp at hd; rcases hd with rfl | rfl <;> decide
  · simp at hd; rcases hd with rfl | rfl <;> decide
  · simp at hd; rcases hd with rfl | rfl <;> decide
  · simp at hd; rcases hd with rfl | rfl <;> decide
  · simp at hd; rcases hd with rfl | rfl <;> decide
  · simp at hd
    rcases hd with rfl | rfl | rfl | rfl | rfl
    · decide
    · decide
    · decide
    · exact hexDigit_ne_newline (by omega)
    · exact hexDigit_ne_newline (Nat.mod_lt _ (by omega))
  · simp at hd
    subst hd
    intro he
    rw [he] at h8
    exact h8 (by decide)

theorem unescapeStr_cons_of_ne {c : Char} (rest : List Char) (hc : ¬ c = '\\') :
    unescapeStr (c :: rest) = (unescapeStr rest).map (c :: ·) := by
  conv_lhs => rw [unescapeStr.eq_def]
  simp only []
  rw [if_neg hc]

theorem unescapeStr_bs (e : Char) (rs : List Char) :
    unescapeStr ('\\' :: e :: rs) =
      if e = '"' then (unescapeStr rs).map ('"' :: ·)
      else if e = '\\' then (unescapeStr rs).map ('\\' :: ·)
      else if e = 'n' then (unescapeStr rs).map ('\n' :: ·)
      else if e = 't' then (unescapeStr rs).map ('\t' :: ·)
      else if e = 'r' then (unescapeStr rs).map ('\r' :: ·)
      else if e = 'b' then (unescapeStr rs).map (Char.ofNat 8 :: ·)
      else if e = 'f' then (unescapeStr rs).map (Char.ofNat 12 :: ·)
      else if e = 'u' then
        (match rs with
         | h1 :: h2 :: h3 :: h4 :: rs2 =>
             match hexVal h1, hexVal h2, hexVal h3, hexVal h4 with
             | some a, some b, some x, some y =>
                 (unescapeStr rs2).map
                   (Char.ofNat (((a * 16 + b) * 16 + x) * 16 + y) :: ·)
             | _, _, _, _ => none
         | _ => none)
      else none := by
  conv_lhs => rw [unescapeStr.eq_def]
  simp only []
  rw [if_pos trivial]

theorem unescape_escape (l : List Char) : unescapeStr (escapeStr l) = some l := by
  induction l with
  | nil => rfl
  | cons c rest ih =>
      show unescapeStr (escapeChar c ++ escapeStr rest) = some (c :: rest)
      unfold escapeChar
      split_ifs with h1 h2 h3 h4 h5 h6 h7 h8
      · subst h1
        show unescapeStr ('\\' :: '"' :: escapeStr rest) = _
        rw [unescapeStr_bs, if_pos rfl, ih]
        rfl
      · subst h2
        show unescapeStr ('\\' :: '\\' :: escapeStr rest) = _
        rw [unescapeStr_bs, if_neg (by decide), if_pos rfl, ih]
        rfl
      · subst h3
        show unescapeStr ('\\' :: 'n' :: escapeStr rest) = _
        rw [unescapeStr_bs, if_neg (by decide), if_neg (by decide), if_pos rfl, ih]
        rfl
      · subst h4
        show unescapeStr ('\\' :: 't' :: escapeStr rest) = _
        rw [unescapeStr_bs, if_neg (by decide), if_neg (by decide), if_neg (by decide),
          if_pos rfl, ih]
        rfl
      · subst h5
        show unescapeStr ('\\' :: 'r' :: escapeStr rest) = _
        rw [unescapeStr_bs, if_neg (by decide), if_neg (by decide), if_neg (by decide),
          if_neg (by decide), if_pos rfl, ih]
        rfl
      · subst h6
        show unescapeStr ('\\' :: 'b' :: escapeStr rest) = _
        rw [unescapeStr_bs, if_neg (by decide), if_neg (by decide), if_neg (by decide),
          if_neg (by decide), if_neg (by decide), if_pos rfl, ih]
        rfl
      · subst h7
        show unescapeStr ('\\' :: 'f' :: escapeStr rest) = _
        rw [unescapeStr_bs, if_neg (by decide), if_neg (by decide), if_neg (by decide),
          if_neg (by decide), if_neg (by decide), if_neg (by decide), if_pos rfl, ih]
        rfl
      · show unescapeStr ('\\' :: 'u' :: '0' :: '0' ::
            hexDigit (c.toNat / 16) :: hexDigit (c.toNat % 16) :: escapeStr rest) =
          some (c :: rest)
        rw [unescapeStr_bs, if_neg (by decide), if_neg (by decide), if_neg (by decide),
          if_neg (by decide), if_neg (by decide), if_neg (by decide), if_neg (by decide),
          if_pos rfl]
        show (match hexVal '0', hexVal '0', hexVal (hexDigit (c.toNat / 16)),
              hexVal (hexDigit (c.toNat % 16)) with
          | some a, some b, some x, some y =>
              (unescapeStr (escapeStr rest)).map
                (Char.ofNat (((a * 16 + b) * 16 + x) * 16 + y) :: ·)
          | _, _, _, _ => none) = some (c :: rest)
        rw [show hexVal '0' = some 0 from by decide,
          hexVal_hexDigit (by omega : c.toNat / 16 < 16),
          hexVal_hexDigit (Nat.mod_lt _ (by omega) : c.toNat % 16 < 16)]
        show (unescapeStr (escapeStr rest)).map
            (Char.ofNat (((0 * 16 + 0) * 16 + c.toNat / 16) * 16 + c.toNat % 16) :: ·) =
          some (c :: rest)
        rw [ih, show ((0 * 16 + 0) * 16 + c.toNat / 16) * 16 + c.toNat % 16 = c.toNat from by
          omega, Char.ofNat_toNat]
        rfl
      · show unescapeStr (c :: escapeStr rest) = some (c :: rest)
        rw [unescapeStr_cons_of_ne _ h2, ih]
        rfl

/-! ## Round trip of the record serialisation -/

theorem stripLead_append (p rest : List Char) : stripLead p (p ++ rest) = some rest := by
  induction p with
  | nil => rfl
  | cons c cs ih => simp [stripLead, ih]

theorem peelTail_true (esc : List Char) : peelTail true (esc ++ ['"', ',']) = some esc := by
  unfold peelTail
  rw [if_pos rfl, List.reverse_append]
  show (match ',' :: '"' :: esc.reverse with
    | ',' :: '"' :: rr => some rr.reverse
    | _ => none) = some esc
  rw [show (match ',' :: '"' :: esc.reverse with
    | ',' :: '"' :: rr => some rr.reverse
    | _ => none) = some esc.reverse.reverse from rfl, List.reverse_reverse]

theorem peelTail_false (esc : List Char) : peelTail false (esc ++ ['"']) = some esc := by
  unfold peelTail
  rw [if_neg (by simp), List.reverse_append]
  show (match '"' :: esc.reverse with
    | '"' :: rr => some rr.reverse
    | _ => none) = some esc
  rw [show (match '"' :: esc.reverse with
    | '"' :: rr => some rr.reverse
    | _ => none) = some esc.reverse.reverse from rfl, List.reverse_reverse]

theorem parseKeyLine_round_comma (pre v : List Char) :
    parseKeyLine pre true (pre ++ (escapeStr v ++ ['"', ','])) = some v := by
  unfold parseKeyLine
  rw [stripLead_append]
  show (match peelTail true (escapeStr v ++ ['"', ',']) with
    | none => none
    | some esc => unescapeStr esc) = some v
  rw [peelTail_true]
  show unescapeStr (escapeStr v) = some v
  exact unescape_escape v

theorem parseKeyLine_round_last (pre v : List Char) :
    parseKeyLine pre false (pre ++ (escapeStr v ++ ['"'])) = some v := by
  unfold parseKeyLine
  rw [stripLead_append]
  show (match peelTail false (escapeStr v ++ ['"']) with
    | none => none
    | some esc => unescapeStr esc) = some v
  rw [peelTail_false]
  show unescapeStr (escapeStr v) = some v
  exact unescape_escape v

theorem quoteStr_no_newline {d : Char} (s : String) (hd : d ∈ quoteStr s) : d ≠ '\n' := by
  unfold quoteStr at hd
  rcases List.mem_cons.mp hd with rfl | hd2
  · decide
  · rcases List.mem_append.mp hd2 with hd3 | hd3
    · unfold escapeStr at hd3
      rcases List.mem_flatMap.mp hd3 with ⟨c, _, hdc⟩
      exact escapeChar_ne_newline hdc
    · simp at hd3
      subst hd3
      decide

theorem recordLines_no_newline (r : SrtRecord) (last : Bool) :
    ∀ line ∈ recordLines r last, '\n' ∉ line := by
  intro line hline
  unfold recordLines at hline
  simp only [List.mem_cons, List.not_mem_nil, or_false] at hline
  rcases hline with rfl | rfl | rfl | rfl | rfl
  · decide
  · intro hm
    rcases List.mem_append.mp hm with hm2 | hm2
    · rcases List.mem_append.mp hm2 with hm3 | hm3
      · revert hm3; decide
      · exact quoteStr_no_newline _ hm3 rfl
    · revert hm2; decide
  · intro hm
    rcases List.mem_append.mp hm with hm2 | hm2
    · rcases List.mem_append.mp hm2 with hm3 | hm3
      · revert hm3; decide
      · exact quoteStr_no_newline _ hm3 rfl
    · revert hm2; decide
  · intro hm
    rcases List.mem_append.mp hm with hm2 | hm2
    · revert hm2; decide
    · exact quoteStr_no_newline _ hm2 rfl
  · cases last <;> (intro hm; revert hm; decide)

theorem jsonLines_no_newline : ∀ rs : List SrtRecord, ∀ line ∈ jsonLines rs, '\n' ∉ line := by
  intro rs
  induction rs with
  | nil => intro line h; exact absurd h (List.not_mem_nil line)
  | cons r rest ih =>
      cases rest with
      | nil => exact recordLines_no_newline r true
      | cons r2 rest2 =>
          intro line hline
          rcases List.mem_append.mp hline with h | h
          · exact recordLines_no_newline r false line h
          · exact ih line h

theorem intercalateChar_cons (sep : Char) (l : List Char) (ls : List (List Char))
    (h : ls ≠ []) :
    intercalateChar sep (l :: ls) = l ++ sep :: intercalateChar sep ls := by
  cases ls with
  | nil => exact absurd rfl h
  | cons l2 ls2 => rfl

theorem splitOnChar_intercalateChar (sep : Char) :
    ∀ ls : List (List Char), ls ≠ [] → (∀ l ∈ ls, sep ∉ l) →
      splitOnChar sep (intercalateChar sep ls) = ls := by
  intro ls
  induction ls with
  | nil => intro h _; exact absurd rfl h
  | cons l rest ih =>
      intro _ hmem
      cases rest with
      | nil =>
          show splitOnChar sep (intercalateChar sep [l]) = [l]
          exact splitOnChar_no_sep fun c hc he => hmem l (by simp) (by rw [← he]; exact hc)
      | cons l2 rest2 =>
          rw [intercalateChar_cons sep l (l2 :: rest2) (by simp),
            splitOnChar_append_sep fun c hc he => hmem l (by simp) (by rw [← he]; exact hc),
            ih (by simp) fun m hm => hmem m (by simp [hm])]

theorem parseRecLines_record (r : SrtRecord) (tail : List (List Char)) (l5 : List Char)
    (hl5 : ((tail.isEmpty && (l5 == "  \x7d".data)) ||
            (!tail.isEmpty && (l5 == "  \x7d,".data))) = true) :
    parseRecLines ("  \x7b".data ::
      ("    \"in_ts\": \"".data ++ (escapeStr r.in_ts.data ++ ['"', ','])) ::
      ("    \"out_ts\": \"".data ++ (escapeStr r.out_ts.data ++ ['"', ','])) ::
      ("    \"text\": \"".data ++ (escapeStr r.text.data ++ ['"'])) ::
      l5 :: tail) = (parseRecLines tail).map (r :: ·) := by
  conv_lhs => rw [parseRecLines.eq_def]
  simp only []
  rw [if_pos trivial]
  rw [parseKeyLine_round_comma, parseKeyLine_round_comma, parseKeyLine_round_last]
  simp only []
  rw [if_pos hl5]

theorem parseRecLines_jsonLines : ∀ rs : List SrtRecord,
    parseRecLines (jsonLines rs) = some rs := by
  intro rs
  induction rs with
  | nil => rfl
  | cons r rest ih =>
      have e2 : "    \"in_ts\": ".data ++ quoteStr r.in_ts ++ [','] =
          "    \"in_ts\": \"".data ++ (escapeStr r.in_ts.data ++ ['"', ',']) := by
        unfold quoteStr
        simp
      have e3 : "    \"out_ts\": ".data ++ quoteStr r.out_ts ++ [','] =
          "    \"out_ts\": \"".data ++ (escapeStr r.out_ts.data ++ ['"', ',']) := by
        unfold quoteStr
        simp
      have e4 : "    \"text\": ".data ++ quoteStr r.text =
          "    \"text\": \"".data ++ (escapeStr r.text.data ++ ['"']) := by
        unfold quoteStr
        simp
      cases rest with
      | nil =>
          show parseRecLines ("  \x7b".data ::
              ("    \"in_ts\": ".data ++ quoteStr r.in_ts ++ [',']) ::
              ("    \"out_ts\": ".data ++ quoteStr r.out_ts ++ [',']) ::
              ("    \"text\": ".data ++ quoteStr r.text) ::
              "  \x7d".data :: []) = some [r]
          rw [e2, e3, e4, parseRecLines_record r [] _ (by decide)]
          rfl
      | cons r2 rest2 =>
          show parseRecLines ("  \x7b".data ::
              ("    \"in_ts\": ".data ++ quoteStr r.in_ts ++ [',']) ::
              ("    \"out_ts\": ".data ++ quoteStr r.out_ts ++ [',']) ::
              ("    \"text\": ".data ++ quoteStr r.text) ::
              "  \x7d,".data :: jsonLines (r2 :: rest2)) = some (r :: r2 :: rest2)
          rw [e2, e3, e4, parseRecLines_record r (jsonLines (r2 :: rest2)) _ (by
            rw [show (jsonLines (r2 :: rest2)).isEmpty = false from by
              cases rest2 <;> rfl]
            decide), ih]
          rfl

theorem parseJson_data (l : List Char) :
    parseJsonRecords (String.mk l) =
      if l = "[]".data then some []
      else
        match splitOnChar '\n' l with
        | [] => none
        | first :: restLines =>
            if first = "[".data ∧ restLines.getLast? = some "]".data then
              parseRecLines restLines.dropLast
            else none := rfl

/-- Parsing inverts the serialiser on every record list. -/
theorem parse_dumps (rs : List SrtRecord) :
    parseJsonRecords (String.mk (dumpsRecords rs)) = some rs := by
  cases rs with
  | nil => rfl
  | cons r rest =>
      have hlsne : jsonLines (r :: rest) ≠ [] := by
        cases rest <;> simp [jsonLines, recordLines]
      have hnl : ∀ l ∈ ("[".data :: (jsonLines (r :: rest) ++ ["]".data])), '\n' ∉ l := by
        intro l hl
        rcases List.mem_cons.mp hl with rfl | hl2
        · decide
        · rcases List.mem_append.mp hl2 with hl3 | hl3
          · exact jsonLines_no_newline (r :: rest) l hl3
          · simp at hl3
            subst hl3
            decide
      have hd : dumpsRecords (r :: rest) =
          intercalateChar '\n' ("[".data :: (jsonLines (r :: rest) ++ ["]".data])) := rfl
      have hne2 : intercalateChar '\n'
          ("[".data :: (jsonLines (r :: rest) ++ ["]".data])) ≠ "[]".data := by
        rw [intercalateChar_cons '\n' _ _ (by simp)]
        intro h
        simp at h
      have hsc : splitOnChar '\n' (intercalateChar '\n'
            ("[".data :: (jsonLines (r :: rest) ++ ["]".data]))) =
          "[".data :: (jsonLines (r :: rest) ++ ["]".data]) :=
        splitOnChar_intercalateChar '\n' _ (by simp) hnl
      rw [hd, parseJson_data, if_neg hne2, hsc]
      simp only []
      rw [if_pos ⟨trivial, List.getLast?_concat _⟩, List.dropLast_concat]
      exact parseRecLines_jsonLines (r :: rest)

/-! ## The claims -/

/-- C1: the time formatter converts a non-negative fractional-seconds
offset by truncation (not rounding) at each unit boundary, agreeing with
the reference definition (hours = floor(seconds/3600), minutes =
floor(remainder/60), seconds = floor(remainder), milliseconds =
floor(fractional part * 1000)) for every non-negative input; in
particular the four listed example values hold.  All arithmetic is
exact-rational; see the C1 result notes for the IEEE-double deviation at
3661.999. -/
theorem claim_C1_truncating_formatter :
    (∀ q : ℚ, 0 ≤ q → format_time_srt q = formatTimeRef q) ∧
    format_time_srt 0 = "00:00:00,000" ∧
    format_time_srt 61.5 = "00:01:01,500" ∧
    format_time_srt 3661.999 = "01:01:01,999" ∧
    format_time_srt 0.0009 = "00:00:00,000" :=
  ⟨fun q _ => format_time_srt_eq_ref q, format_time_at_0, format_time_at_61_5,
    format_time_at_3661_999, format_time_at_0_0009⟩

theorem claim_C1_truncating_formatter_witness :
    (0:ℚ) ≤ 61.5 ∧ format_time_srt 61.5 = formatTimeRef 61.5 :=
  ⟨by norm_num, claim_C1_truncating_formatter.1 61.5 (by norm_num)⟩

/-- C2: every 11-character alphanumeric id is extracted identically from
the raw-id shape and from the three recognised URL shapes; and every
input outside the recognised shapes yields the not-found signal, stated
on the class where the `urlparse`/`isalnum` embedding is exact —
printable ASCII without spaces (outside it CPython's `urlsplit` strips
whitespace and control characters and `str.isalnum` accepts non-ASCII
alphanumerics) and a bracket-free network location (a bracketed netloc
is parsed as an IPv6 host and can raise `ValueError`). -/
theorem claim_C2_extraction_canonical :
    (∀ id : String, id.data.length = 11 → (∀ c ∈ id.data, c.isAlphanum = true) →
      extract_video_id id = some id ∧
      extract_video_id ("https://www.youtube.com/watch?v=" ++ id) = some id ∧
      extract_video_id ("https://www.youtube.com/embed/" ++ id) = some id ∧
      extract_video_id ("https://youtu.be/" ++ id) = some id) ∧
    (∀ s : String, (∀ c ∈ s.data, 0x20 < c.toNat ∧ c.toNat < 0x7f) →
      '[' ∉ (urlsplit s.data).netloc → ']' ∉ (urlsplit s.data).netloc →
      recognizedShapeB s = false → extract_video_id s = none) := by
  constructor
  · intro id h11 hal
    have hsafe : ∀ c ∈ id.data, urlSafeChar c := fun c hc => alnum_urlSafe (hal c hc)
    have hne : id.data ≠ [] := by
      intro h
      rw [h] at h11
      simp at h11
    have halB : id.data.all Char.isAlphanum = true := by
      rw [List.all_eq_true]
      exact hal
    exact ⟨extract_raw h11 halB, extract_watch hsafe hne, extract_embed hsafe,
      extract_short hsafe⟩
  · exact fun s _ _ _ h => extract_unrecognized h

theorem claim_C2_extraction_canonical_witness :
    extract_video_id "dQw4w9WgXcQ" = some "dQw4w9WgXcQ" ∧
    extract_video_id "https://www.youtube.com/watch?v=dQw4w9WgXcQ" = some "dQw4w9WgXcQ" ∧
    extract_video_id "https://www.youtube.com/embed/dQw4w9WgXcQ" = some "dQw4w9WgXcQ" ∧
    extract_video_id "https://youtu.be/dQw4w9WgXcQ" = some "dQw4w9WgXcQ" ∧
    extract_video_id "https://vimeo.com/12345" = none :=
  ⟨(claim_C2_extraction_canonical.1 "dQw4w9WgXcQ" (by decide) (by decide)).1,
   (claim_C2_extraction_canonical.1 "dQw4w9WgXcQ" (by decide) (by decide)).2.1,
   (claim_C2_extraction_canonical.1 "dQw4w9WgXcQ" (by decide) (by decide)).2.2.1,
   (claim_C2_extraction_canonical.1 "dQw4w9WgXcQ" (by decide) (by decide)).2.2.2,
   claim_C2_extraction_canonical.2 "https://vimeo.com/12345" (by decide) (by decide)
     (by decide) (by decide)⟩

/-- C3: the subtitle output of N entries is the newline-join of exactly
N four-line blocks in input order with 1-based counters 1..N, each block
being the counter, the `<start> --> <end>` line with end = start +
duration, the trimmed text, and one blank separator line; empty-text
entries still produce a block, so the line count is exactly 4N. -/
theorem claim_C3_srt_blocks (ts : List Entry) :
    create_srt ts = String.intercalate "\n"
      ((List.enumFrom 1 ts).flatMap fun p =>
        [String.mk (natRepr p.1),
         format_time_srt p.2.start ++ " --> " ++
           format_time_srt (p.2.start + p.2.duration),
         pyStrip p.2.text, ""]) ∧
    (List.enumFrom 1 ts).map Prod.fst = List.range' 1 ts.length ∧
    ((List.enumFrom 1 ts).flatMap fun p =>
        [String.mk (natRepr p.1),
         format_time_srt p.2.start ++ " --> " ++
           format_time_srt (p.2.start + p.2.duration),
         pyStrip p.2.text, ""]).length = 4 * ts.length := by
  refine ⟨?_, List.enumFrom_map_fst 1 ts, ?_⟩
  · rw [create_srt_blocks]
    rfl
  · have h4 : ∀ p : Nat × Entry,
        ([String.mk (natRepr p.1),
          format_time_srt p.2.start ++ " --> " ++
            format_time_srt (p.2.start + p.2.duration),
          pyStrip p.2.text, ""] : List String).length = 4 := fun p => rfl
    rw [flatMap_length_four _ _ h4, List.enumFrom_length]

/-- C4: the flattened output is the newline-join of exactly the
non-empty trimmed texts in input order, and the number of emitted lines
equals the number of entries whose trimmed text is non-empty. -/
theorem claim_C4_markdown_filter (ts : List Entry) :
    create_markdown ts = String.intercalate "\n"
      ((ts.map fun e => pyStrip e.text).filter fun s => s ≠ "") ∧
    ((ts.map fun e => pyStrip e.text).filter fun s => s ≠ "").length =
      (ts.filter fun e => pyStrip e.text ≠ "").length := by
  constructor
  · unfold create_markdown
    rw [mdLines_eq]
  · rw [List.filter_map, List.length_map]
    rfl

/-- C5: the structured renderer round-trips: parsing its serialised
output yields exactly one record per entry, in order, with the formatted
start time, the formatted end time (start + duration), and the trimmed
text. -/
theorem claim_C5_json_roundtrip (ts : List Entry) :
    parseJsonRecords (create_json ts) = some (ts.map fun e =>
      SrtRecord.mk (format_time_srt e.start)
        (format_time_srt (e.start + e.duration)) (pyStrip e.text)) := by
  unfold create_json
  rw [jsonRecords_eq]
  exact parse_dumps _

/-- C6: `main` exits 0 exactly on success (argument present, fetch
library importable, id resolvable to a nonempty string, and the whole
fetch/render/write phase succeeding) and 1 in every other case, and
every failing run writes at least one message to stderr. -/
theorem claim_C6_exit_codes (inp : MainInput) :
    ((mainRun inp).exitCode = 0 ∨ (mainRun inp).exitCode = 1) ∧
    ((mainRun inp).exitCode = 0 ↔
      (2 ≤ inp.argv.length ∧ inp.importOk = true ∧
       (∃ v, extract_video_id (inp.argv.getD 1 "") = some v ∧ v ≠ "") ∧
       inp.pipeline = PipeOutcome.success)) ∧
    ((mainRun inp).exitCode = 1 → (mainRun inp).stderrLines ≠ []) := by
  unfold mainRun
  by_cases h1 : inp.argv.length < 2
  · rw [if_pos h1]
    refine ⟨by simp, ⟨fun h => by simp at h, ?_⟩, fun _ => by simp⟩
    rintro ⟨ha, _⟩
    omega
  · rw [if_neg h1]
    by_cases h2 : inp.importOk = false
    · rw [if_pos h2]
      refine ⟨by simp, ⟨fun h => by simp at h, ?_⟩, fun _ => by simp⟩
      rintro ⟨_, hb, _⟩
      rw [h2] at hb
      simp at hb
    · rw [if_neg h2]
      have h2' : inp.importOk = true := by
        cases hio : inp.importOk
        · exact absurd hio h2
        · rfl
      cases hv : extract_video_id (inp.argv.getD 1 "") with
      | none =>
          simp only [hv]
          refine ⟨by simp, ⟨fun h => by simp at h, ?_⟩, fun _ => by simp⟩
          rintro ⟨_, _, ⟨v, hv2, _⟩, _⟩
          exact Option.noConfusion hv2
      | some v =>
          simp only [hv]
          by_cases h3 : v = ""
          · rw [if_pos h3]
            refine ⟨by simp, ⟨fun h => by simp at h, ?_⟩, fun _ => by simp⟩
            rintro ⟨_, _, ⟨w, hw, hwne⟩, _⟩
            exact absurd ((Option.some.inj hw).symm.trans h3) hwne
          · rw [if_neg h3]
            cases hp : inp.pipeline with
            | success =>
                refine ⟨by simp, ⟨?_, ?_⟩, ?_⟩
                · intro _
                  exact ⟨by omega, h2', ⟨v, rfl, h3⟩, rfl⟩
                · intro _
                  rfl
                · intro h
                  simp at h
            | failure msg =>
                refine ⟨by simp, ⟨?_, ?_⟩, fun _ => by simp⟩
                · intro h
                  simp at h
                · rintro ⟨_, _, _, hps⟩
                  exact PipeOutcome.noConfusion hps

theorem claim_C6_exit_codes_witness :
    (mainRun ⟨["get-yt-transcript"], true, PipeOutcome.success⟩).exitCode = 1 ∧
    (mainRun ⟨["get-yt-transcript"], true, PipeOutcome.success⟩).stderrLines ≠ [] :=
  ⟨by decide,
   (claim_C6_exit_codes ⟨["get-yt-transcript"], true, PipeOutcome.success⟩).2.2
     (by decide)⟩

/-- C7 counterexample: at 100 hours (360000 seconds, a non-negative
offset) the hour field takes three digits and the output is 13
characters, so the output is not always exactly 12 characters. -/
theorem claim_C7_width_counterexample :
    (0:ℚ) ≤ 360000 ∧ format_time_srt 360000 = "100:00:00,000" ∧
    (format_time_srt 360000).length ≠ 12 := by
  refine ⟨by norm_num, format_time_at_360000, ?_⟩
  rw [format_time_at_360000]
  decide

/-- C7 (amended): for every non-negative offset below 100 hours, the
four fields pad to exactly 2, 2, 2 and 3 characters and the output is
exactly 12 characters long. -/
theorem claim_C7_width_amended (q : ℚ) (h0 : 0 ≤ q) (h1 : q < 360000) :
    (padInt 2 ⌊q / 3600⌋).length = 2 ∧
    (padInt 2 ⌊pymod q 3600 / 60⌋).length = 2 ∧
    (padInt 2 ⌊pymod q 60⌋).length = 2 ∧
    (padInt 3 ⌊pymod q 1 * 1000⌋).length = 3 ∧
    (format_time_srt q).length = 12 :=
  format_time_width h0 h1

theorem claim_C7_width_amended_witness :
    (0:ℚ) ≤ 61.5 ∧ (61.5:ℚ) < 360000 ∧ (format_time_srt 61.5).length = 12 :=
  ⟨by norm_num, by norm_num,
   (claim_C7_width_amended 61.5 (by norm_num) (by norm_num)).2.2.2.2⟩

/-- C8: none of the three rendering loops writes to the transcript
list: each loop's final state carries the store unchanged, and the three
renderers are exactly the joins of those loops' outputs. -/
theorem claim_C8_renderers_pure (ts : List Entry) :
    (runLoop srtF ts).store = ts ∧
    (runLoop mdF ts).store = ts ∧
    (runLoop jsonF ts).store = ts ∧
    create_srt ts = String.intercalate "\n" (runLoop srtF ts).out ∧
    create_markdown ts = String.intercalate "\n" (runLoop mdF ts).out ∧
    create_json ts = String.mk (dumpsRecords (runLoop jsonF ts).out) :=
  ⟨loopRun_store srtF ts.length ⟨ts, 0, []⟩,
   loopRun_store mdF ts.length ⟨ts, 0, []⟩,
   loopRun_store jsonF ts.length ⟨ts, 0, []⟩, rfl, rfl, rfl⟩

/-- C9: on a recognised-host `/watch` URL whose query string binds no
usable `v` parameter, extraction returns the not-found signal (the
`.get('v', [None])[0]` default) instead of failing. -/
theorem claim_C9_watch_without_v (s : String) (hst : List Char)
    (hraw : ¬ (s.data.length = 11 ∧ pyIsAlnum s.data = true))
    (hh : hostFromNetloc (urlsplit s.data).netloc = some hst)
    (hm : hst ∈ ytHosts)
    (hp : (urlsplit s.data).path = "/watch".data)
    (hv : (parse_qsl (urlsplit s.data).query).find? (fun p => p.1 == ['v']) = none) :
    extract_video_id s = none := by
  apply extract_watch_no_v hraw hh hm hp
  unfold getVParam
  rw [hv]
  rfl

theorem claim_C9_watch_without_v_witness :
    extract_video_id "https://www.youtube.com/watch" = none :=
  claim_C9_watch_without_v "https://www.youtube.com/watch" "www.youtube.com".data
    (by decide) (by decide) (by decide) (by decide) (by decide)

/-- C10: an 11-character identifier containing a dash or underscore
(with all characters alphanumeric, dash or underscore) is rejected by
the raw-id branch, which requires `isalnum`, yet the same identifier is
extracted from each recognised URL shape. -/
theorem claim_C10_dash_underscore_id (id : String)
    (h11 : id.data.length = 11)
    (hch : ∀ c ∈ id.data, c.isAlphanum = true ∨ c = '-' ∨ c = '_')
    (hbad : ∃ c ∈ id.data, c = '-' ∨ c = '_') :
    extract_video_id id = none ∧
    extract_video_id ("https://youtu.be/" ++ id) = some id ∧
    extract_video_id ("https://www.youtube.com/watch?v=" ++ id) = some id ∧
    extract_video_id ("https://www.youtube.com/embed/" ++ id) = some id := by
  have hsafe : ∀ c ∈ id.data, urlSafeChar c := fun c hc => idChar_urlSafe (hch c hc)
  have hne : id.data ≠ [] := by
    intro h
    rw [h] at h11
    simp at h11
  refine ⟨?_, extract_short hsafe, extract_watch hsafe hne, extract_embed hsafe⟩
  apply extract_unrecognized
  have halnum : pyIsAlnum id.data = false := by
    obtain ⟨c, hc, hcd⟩ := hbad
    unfold pyIsAlnum
    have hall : id.data.all Char.isAlphanum = false := by
      rw [List.all_eq_false]
      exact ⟨c, hc, by rcases hcd with rfl | rfl <;> decide⟩
    rw [hall, Bool.and_false]
  have hs : schemeSplit id.data = ([], id.data) := by
    unfold schemeSplit
    rw [splitFirst_eq_none fun c hc => (hsafe c hc).1]
  have hn : netlocSplit id.data = ([], id.data) := by
    unfold netlocSplit
    rw [if_neg ?_]
    obtain ⟨c1, rest1, hd1⟩ : ∃ c cs, id.data = c :: cs := by
      cases hx : id.data with
      | nil => exact absurd hx hne
      | cons c cs => exact ⟨c, cs, rfl⟩
    have hc1 : c1 ∈ id.data := by rw [hd1]; simp
    intro h
    rw [hd1] at h
    cases rest1 with
    | nil =>
        rw [hd1] at h11
        simp at h11
    | cons c2 rest2 =>
        simp [List.take] at h
        exact (hsafe c1 hc1).2.1 h.1
  have hhost : hostFromNetloc (urlparse id.data).netloc = none := by
    show hostFromNetloc (netlocSplit (schemeSplit id.data).2).1 = none
    rw [hs]
    show hostFromNetloc (netlocSplit id.data).1 = none
    rw [hn]
    rfl
  unfold recognizedShapeB
  rw [hhost]
  show (decide (id.data.length = 11 ∧ pyIsAlnum id.data = true) || false) = false
  rw [Bool.or_false, decide_eq_false_iff_not]
  rintro ⟨_, hP⟩
  rw [halnum] at hP
  exact Bool.false_ne_true hP

theorem claim_C10_dash_underscore_id_witness :
    extract_video_id "abc-efghijk" = none ∧
    extract_video_id "https://youtu.be/abc-efghijk" = some "abc-efghijk" :=
  ⟨(claim_C10_dash_underscore_id "abc-efghijk" (by decide) (by decide) (by decide)).1,
   (claim_C10_dash_underscore_id "abc-efghijk" (by decide) (by decide) (by decide)).2.1⟩
